import Mathlib

/-!
Verification of the NMT node codec of `p2p/ipld/plugin/nodes/nodes.go`
(lazyledger-core).

Byte strings are modelled as `List Nat`, Go `(value, error)` returns as
`Except String α`, and a Go `panic` / out-of-range slice as the `none` of an
outer `Option`.  External collaborators (the nmt library's prefixes and the
go-multihash registry) are modelled from their contracts as stated in the
spec; everything else is translated directly from the Go source.
-/

namespace LLNodes

/-- Modelled from the spec: `nmt.LeafPrefix`, the domain-separator byte of
leaf nodes in the external nmt collaborator (0x00 per spec section 6). -/
def leafPrefixByte : Nat := 0

/-- Modelled from the spec: `nmt.NodePrefix`, the domain-separator byte of
inner nodes in the external nmt collaborator (0x01 per spec section 6). -/
def innerPrefixByte : Nat := 1

/-- `Nmt = 0x7700`, the codec used for leaf and inner nodes (nodes.go line 27). -/
def Nmt : Nat := 0x7700

/-- `Sha256Namespace8Flagged = 0x7701`, the multihash code (nodes.go line 34). -/
def Sha256Namespace8Flagged : Nat := 0x7701

/-- `namespaceSize = 8` (nodes.go line 43). -/
def namespaceSize : Nat := 8

/-- `sha256.Size = 32`, the SHA-256 digest width. -/
def sha256Size : Nat := 32

/-- `shareSize = 256` (nodes.go line 44). -/
def shareSize : Nat := 256

/-- `nmtHashSize = 2*namespaceSize + sha256.Size` (nodes.go line 46). -/
def nmtHashSize : Nat := 2 * namespaceSize + sha256Size

/-- A multihash, per the spec's model of go-multihash:
`(algorithm-tag, length, digest-bytes)`. -/
structure Multihash where
  code : Nat
  mlength : Nat
  digest : List Nat
deriving DecidableEq, Repr

/-- A CID: either the zero value `cid.Undef` or a v1 `(codec, multihash)`
pair, per the go-cid collaborator's contract in the spec. -/
inductive CidV where
  | undef
  | v1 (codec : Nat) (mhash : Multihash)
deriving DecidableEq, Repr

/-- The codec of a CID, when defined. -/
def CidV.codecI : CidV → Option Nat
  | .undef => none
  | .v1 codec _ => some codec

/-- The multihash digest carried by a CID, when defined.  This is the
`parseCid(...).digest` projection of the spec. -/
def CidV.digestI : CidV → Option (List Nat)
  | .undef => none
  | .v1 _ mhash => some mhash.digest

/-- The error message of `CidFromNamespacedSha256` (nodes.go line 449). -/
def cidLengthErrMsg (got want : Nat) : String :=
  "invalid namespaced hash length, got: " ++ toString got ++ ", want: " ++ toString want

/-- `CidFromNamespacedSha256` (nodes.go lines 447-456): require the input to
be exactly `nmtHashSize` bytes, then wrap it in a multihash tagged
`Sha256Namespace8Flagged` (`mh.Encode` is modelled from the spec as the
triple `(tag, length, digest)`) and pair it with the `Nmt` codec in a v1 CID. -/
def CidFromNamespacedSha256 (namespacedHash : List Nat) : Except String CidV :=
  if namespacedHash.length ≠ nmtHashSize then
    .error (cidLengthErrMsg namespacedHash.length nmtHashSize)
  else
    .ok (.v1 Nmt ⟨Sha256Namespace8Flagged, namespacedHash.length, namespacedHash⟩)

/-- `mustCidFromNamespacedSha256` (nodes.go lines 460-470): panics (`none`)
when `CidFromNamespacedSha256` errors. -/
def mustCidFromNamespacedSha256 (hash : List Nat) : Option CidV :=
  match CidFromNamespacedSha256 hash with
  | .ok c => some c
  | .error _ => none

/-- `nmtNode` (nodes.go lines 285-289): an inner node holding its CID and the
left and right namespaced hashes. -/
structure nmtNode where
  cid : CidV
  l : List Nat
  r : List Nat
deriving DecidableEq, Repr

/-- `nmtLeafNode` (nodes.go lines 384-387): a leaf node holding its CID and
the bytes after the leaf prefix (`namespaceID ++ shareData`). -/
structure nmtLeafNode where
  cid : CidV
  Data : List Nat
deriving DecidableEq, Repr

/-- The `node.Node` interface value: nil (the placeholder appended inside
`prependNode`), an inner node, or a leaf node. -/
inductive NodeI where
  | nilNode
  | inner (n : nmtNode)
  | leaf (n : nmtLeafNode)
deriving DecidableEq, Repr

/-- `nmtNode.RawData` (nodes.go lines 291-293):
`append([]byte{nmt.NodePrefix}, append(n.l, n.r...)...)`. -/
def nmtNode.RawData (n : nmtNode) : List Nat :=
  innerPrefixByte :: (n.l ++ n.r)

/-- `nmtLeafNode.RawData` (nodes.go lines 389-391):
`append([]byte{nmt.LeafPrefix}, l.Data...)`. -/
def nmtLeafNode.RawData (lf : nmtLeafNode) : List Nat :=
  leafPrefixByte :: lf.Data

/-- The identifier (`Cid()` method) of a `node.Node` value. -/
def NodeI.cidI : NodeI → CidV
  | .nilNode => CidV.undef
  | .inner n => n.cid
  | .leaf n => n.cid

/-- The `RawData()` method of a `node.Node` value (never invoked on nil). -/
def NodeI.rawDataI : NodeI → List Nat
  | .nilNode => []
  | .inner n => n.RawData
  | .leaf n => n.RawData

/-- A block handed to the decoder: its raw bytes and its CID
(`blocks.Block`, an external collaborator). -/
structure Block where
  rawData : List Nat
  blockCid : CidV
deriving DecidableEq, Repr

/-- Lowercase hex digit, as produced by Go's `%x` verb. -/
def hexDigitChar (n : Nat) : Char :=
  if n < 10 then Char.ofNat (48 + n) else Char.ofNat (87 + n)

/-- Go `%x` on a byte slice: each byte as two lowercase hex digits. -/
def hexOfBytes (bs : List Nat) : String :=
  String.join (bs.map fun b => String.mk [hexDigitChar (b / 16), hexDigitChar (b % 16)])

/-- The domain-separator error message of `NmtNodeParser`
(nodes.go lines 274-279). -/
def parseErrMsg (domainSeparator : List Nat) : String :=
  "expected first byte of block to be either the leaf or inner node prefix: (" ++
    hexOfBytes [leafPrefixByte] ++ ", " ++ hexOfBytes [innerPrefixByte] ++
    "), got: " ++ hexOfBytes domainSeparator ++ ")"

/-- `NmtNodeParser` (nodes.go lines 246-280).  Empty data yields an empty
leaf with `cid.Undef`; a leaf-prefix first byte yields a leaf holding
`data[1:]` and the block's CID; an inner-prefix first byte yields an inner
node with `l = data[1:49]` and `r = data[49:]` — the Go slice expressions
panic (`none`) when the block is shorter than 49 bytes, and no length check
is performed otherwise; any other first byte yields the domain-separator
error. -/
def NmtNodeParser (block : Block) : Option (Except String NodeI) :=
  let data := block.rawData
  if data.length = 0 then
    some (.ok (.leaf ⟨CidV.undef, []⟩))
  else
    let domainSeparator := data.take 1
    if domainSeparator = [leafPrefixByte] then
      some (.ok (.leaf ⟨block.blockCid, data.drop 1⟩))
    else if domainSeparator = [innerPrefixByte] then
      if data.length < 1 + nmtHashSize then
        none
      else
        some (.ok (.inner ⟨block.blockCid, (data.drop 1).take nmtHashSize,
          data.drop (1 + nmtHashSize)⟩))
    else
      some (.error (parseErrMsg domainSeparator))

/-- The outcome of a `Resolve` call: either a link (with the remaining
path) or an error. -/
inductive ResolveOut where
  | link (c : CidV) (rest : List String)
  | err (msg : String)
deriving DecidableEq, Repr

/-- Error message of `nmtNode.Resolve` (nodes.go line 327). -/
def errInvalidPathInnerMsg : String := "invalid path for inner node"

/-- Error message of `nmtLeafNode.Resolve` (nodes.go line 410). -/
def errInvalidPathLeafMsg : String := "invalid path for leaf node"

/-- `nmtNode.Resolve` (nodes.go lines 312-329): switches on `path[0]` — a Go
index expression that panics (`none`) on an empty slice.  Step `"0"` mints
the left child's CID from `n.l`, `"1"` the right child's from `n.r`
(returning the CID error when minting fails); any other step errors. -/
def nmtNode.Resolve (n : nmtNode) (path : List String) : Option ResolveOut :=
  match path with
  | [] => none
  | step :: rest =>
    if step = "0" then
      match CidFromNamespacedSha256 n.l with
      | .error e => some (.err e)
      | .ok left => some (.link left rest)
    else if step = "1" then
      match CidFromNamespacedSha256 n.r with
      | .error e => some (.err e)
      | .ok right => some (.link right rest)
    else
      some (.err errInvalidPathInnerMsg)

/-- `nmtLeafNode.Resolve` (nodes.go lines 409-411): always errors, for every
path (the path is never inspected). -/
def nmtLeafNode.Resolve (lf : nmtLeafNode) (path : List String) : Option ResolveOut :=
  some (.err errInvalidPathLeafMsg)

/-- `nmtNode.Copy` (nodes.go lines 356-367): copies the `l` and `r` buffers
and returns a new inner node with the same CID (value semantics make the
byte-level copy the identity). -/
def nmtNode.Copy (n : nmtNode) : Option NodeI :=
  some (.inner ⟨n.cid, n.l, n.r⟩)

/-- `nmtLeafNode.Copy` (nodes.go lines 430-432): the body is exactly a
panic — "implement me" — so the call always aborts (`none`). -/
def nmtLeafNode.Copy (lf : nmtLeafNode) : Option NodeI :=
  none

/-- `prependNode` (nodes.go lines 198-203), translated operation by
operation: `nodes = append(nodes, nil)` extends the slice with a nil
placeholder; `copy(nodes[1:], nodes)` copies (with memmove semantics) the
first `len-1` elements one position to the right, so the resulting slice is
`ext[0] :: ext[0..len-2]`; `nodes[0] = newNode` overwrites the head. -/
def prependNode (newNode : NodeI) (nodes : List NodeI) : List NodeI :=
  let ext := nodes ++ [NodeI.nilNode]
  let shifted := ext.take 1 ++ ext.take (ext.length - 1)
  newNode :: shifted.drop 1

/-- `nmtNodeCollector` (nodes.go lines 164-166): the in-memory node list. -/
structure nmtNodeCollector where
  nodes : List NodeI
deriving DecidableEq, Repr

/-- `newNodeCollector` (nodes.go lines 168-173): empty node list (the Go
capacity hint has no observable effect). -/
def newNodeCollector : nmtNodeCollector := ⟨[]⟩

/-- `nmtNodeCollector.ipldNodes` (nodes.go lines 175-177). -/
def nmtNodeCollector.ipldNodes (n : nmtNodeCollector) : List NodeI :=
  n.nodes

/-- `nmtNodeCollector.visit` (nodes.go lines 179-196): mint the CID from the
visited hash (panicking — `none` — when it is not `nmtHashSize` bytes),
prepend a leaf node for one child, an inner node for two children, and
panic ("expected a binary tree") on any other arity. -/
def nmtNodeCollector.visit (n : nmtNodeCollector) (hash : List Nat)
    (children : List (List Nat)) : Option nmtNodeCollector :=
  match mustCidFromNamespacedSha256 hash with
  | none => none
  | some cid =>
    match children with
    | [c0] => some ⟨prependNode (.leaf ⟨cid, c0⟩) n.nodes⟩
    | [c0, c1] => some ⟨prependNode (.inner ⟨cid, c0, c1⟩) n.nodes⟩
    | _ => none

/-- One visitor callback as issued by the NMT collaborator: the node's
namespaced hash and the children payloads. -/
structure VisitCall where
  hash : List Nat
  children : List (List Nat)
deriving DecidableEq, Repr

/-- Run a sequence of visitor callbacks through the collector, propagating
panics. -/
def collectorRun : List VisitCall → nmtNodeCollector → Option nmtNodeCollector
  | [], st => some st
  | v :: vs, st =>
    match st.visit v.hash v.children with
    | none => none
    | some st2 => collectorRun vs st2

/-- The typed node a single `visit` callback constructs (before
prepending), when it does not panic. -/
def mkVisitNode (v : VisitCall) : Option NodeI :=
  match mustCidFromNamespacedSha256 v.hash with
  | none => none
  | some cid =>
    match v.children with
    | [c0] => some (.leaf ⟨cid, c0⟩)
    | [c0, c1] => some (.inner ⟨cid, c0, c1⟩)
    | _ => none

/-- The nodes emitted by a callback sequence, in emission order; `none` when
some callback panics. -/
def emittedNodes : List VisitCall → Option (List NodeI)
  | [] => some []
  | v :: vs =>
    match mkVisitNode v, emittedNodes vs with
    | some nd, some rest => some (nd :: rest)
    | _, _ => none

/-- The process-wide go-multihash registry, modelled from the spec's
contract for the external collaborator: the `Codes`, `Names` and
`DefaultLengths` maps (as association lists, most recent entry first) and
the set of codes with a registered hash function. -/
structure MhRegistry where
  codes : List (Nat × String)
  names : List (String × Nat)
  defaultLengths : List (Nat × Nat)
  hashFuncs : List Nat
deriving DecidableEq, Repr

/-- Modelled from the spec: `mh.RegisterHashFunc` of the external
go-multihash collaborator — it errors when the code is not yet present in
`mh.Codes` (the source comment on nodes.go line 74 states this contract)
and otherwise records the hash function. -/
def registerHashFunc (codec : Nat) (st : MhRegistry) : Except String MhRegistry :=
  match st.codes.lookup codec with
  | none => .error "code not registered"
  | some _ => .ok { st with hashFuncs := codec :: st.hashFuncs }

/-- `mustRegisterNamespacedCodec` (nodes.go lines 63-83), translated
branch by branch.  The outer guard fires only when the code is absent from
`mh.Codes`; the nested conflict check re-reads the same map under that
guard, so its panic branch is unreachable; an absent code installs the
name, default length and hash function (panicking if `RegisterHashFunc`
errors). -/
def mustRegisterNamespacedCodec (codec : Nat) (name : String)
    (defaultLength : Nat) (st : MhRegistry) : Option MhRegistry :=
  match st.codes.lookup codec with
  | some _ => some st
  | none =>
    match st.codes.lookup codec with
    | some _ => none
    | none =>
      let st1 : MhRegistry :=
        { st with
          codes := (codec, name) :: st.codes
          names := (name, codec) :: st.names
          defaultLengths := (codec, defaultLength) :: st.defaultLengths }
      match registerHashFunc codec st1 with
      | .error _ => none
      | .ok st2 => some st2

/-- `sumSha256Namespace8Flagged` (nodes.go lines 87-93), parametrised by the
external nmt hash routines `Sha256Namespace8FlaggedLeaf` and
`Sha256Namespace8FlaggedInner`: reading `data[0]` panics (`none`) on empty
input; otherwise dispatch on the leaf prefix and return a nil error. -/
def sumSha256Namespace8Flagged (leafHash innerHash : List Nat → List Nat)
    (data : List Nat) (_length : Int) : Option (Except String (List Nat)) :=
  match data with
  | [] => none
  | b :: _ =>
    if b = leafPrefixByte then
      some (.ok (leafHash (data.drop 1)))
    else
      some (.ok (innerHash (data.drop 1)))

/-- Boolean test: the first list is an initial segment of the second. -/
def charsHavePre : List Char → List Char → Bool
  | [], _ => true
  | _ :: _, [] => false
  | a :: as, b :: bs => a == b && charsHavePre as bs

/-- Boolean substring containment on character lists. -/
def charsContain : List Char → List Char → Bool
  | [], needle => charsHavePre needle []
  | h :: t, needle => charsHavePre needle (h :: t) || charsContain t needle

/-- Go `strings.Contains`: the needle occurs contiguously in the haystack. -/
def strContainsSub (hay needle : String) : Bool :=
  charsContain hay.data needle.data

/-- A 50-byte block starting with the inner-node prefix: first byte legal,
length ≠ 97. -/
def cexBlock50 : Block := ⟨innerPrefixByte :: List.replicate 49 7, CidV.undef⟩

/-- A one-byte block consisting only of the inner-node prefix. -/
def cexBlock1 : Block := ⟨[innerPrefixByte], CidV.undef⟩

/-- A registry in which the code `Sha256Namespace8Flagged` is already taken
by a different registration. -/
def conflictRegistry : MhRegistry :=
  ⟨[(Sha256Namespace8Flagged, "some-other-codec")],
   [("some-other-codec", Sha256Namespace8Flagged)], [], []⟩

/-- The empty go-multihash registry. -/
def emptyRegistry : MhRegistry := ⟨[], [], [], []⟩

/-- A concrete 48-byte namespaced hash for witnesses. -/
def wHash : List Nat := List.replicate 48 2

/-- The CID minted from `wHash`. -/
def wCid : CidV := .v1 Nmt ⟨Sha256Namespace8Flagged, 48, wHash⟩

/-- A concrete leaf visit callback (one child). -/
def wLeafCall : VisitCall := ⟨wHash, [[9]]⟩

/-- A concrete root visit callback (two children), emitted last. -/
def wRootCall : VisitCall := ⟨wHash, [wHash, wHash]⟩

/-- The node `wRootCall` constructs. -/
def wRootNode : NodeI := .inner ⟨wCid, wHash, wHash⟩

/-- The node `wLeafCall` constructs. -/
def wLeafNode : NodeI := .leaf ⟨wCid, [9]⟩

/-- The collector state after running `[wLeafCall, wRootCall]`. -/
def wOut : nmtNodeCollector := ⟨[wRootNode, wLeafNode]⟩

/-- C7 counterexample: `Copy` on a concrete leaf node aborts (the source
body is `panic("implement me")`), refuting the claim that `Copy` returns a
node without aborting for every node. -/
theorem leafCopy_aborts : nmtLeafNode.Copy ⟨CidV.undef, []⟩ = none := rfl

/-- C7 (amended): `Copy` on an inner node returns — without aborting — a
node whose identifier and raw bytes equal the original's; `Copy` on a leaf
node always aborts, since its body is left unimplemented. -/
theorem copy_spec_amended :
    ∀ n : nmtNode,
      n.Copy = some (.inner ⟨n.cid, n.l, n.r⟩) ∧
      (NodeI.inner ⟨n.cid, n.l, n.r⟩).cidI = n.cid ∧
      (NodeI.inner ⟨n.cid, n.l, n.r⟩).rawDataI = n.RawData ∧
      ∀ lf : nmtLeafNode, lf.Copy = none :=
  fun _ => ⟨rfl, rfl, rfl, fun _ => rfl⟩

/-- C8: evaluated on a registry where the code `0x7701` is already taken by
a different registration, `mustRegisterNamespacedCodec` silently returns the
registry unchanged — it does not abort, because the conflict check is nested
under the opposite guard and is dead code.  On an empty registry it installs
the name, default length and hash function as claimed. -/
theorem mustRegisterNamespacedCodec_behavior :
    mustRegisterNamespacedCodec Sha256Namespace8Flagged "sha2-256-namespace8-flagged"
        nmtHashSize conflictRegistry = some conflictRegistry ∧
    conflictRegistry.codes.lookup Sha256Namespace8Flagged = some "some-other-codec" ∧
    "some-other-codec" ≠ "sha2-256-namespace8-flagged" ∧
    mustRegisterNamespacedCodec Sha256Namespace8Flagged "sha2-256-namespace8-flagged"
        nmtHashSize emptyRegistry =
      some ⟨[(Sha256Namespace8Flagged, "sha2-256-namespace8-flagged")],
            [("sha2-256-namespace8-flagged", Sha256Namespace8Flagged)],
            [(Sha256Namespace8Flagged, nmtHashSize)], [Sha256Namespace8Flagged]⟩ :=
  ⟨rfl, rfl, by decide, rfl⟩

/-- C9: `nmtNode.Resolve` reads `path[0]` unguarded, so the empty path falls
outside every defined branch (modelled as `none`); for every non-empty path
it is total and returns either a link or an error. -/
theorem resolve_empty_path_partial :
    (∀ n : nmtNode, n.Resolve [] = none) ∧
    (∀ (n : nmtNode) (s : String) (rest : List String),
      ∃ out, n.Resolve (s :: rest) = some out) := by
  refine ⟨fun n => rfl, fun n s rest => ?_⟩
  by_cases h0 : s = "0"
  · rcases hc : CidFromNamespacedSha256 n.l with e | c
    · exact ⟨.err e, by simp [nmtNode.Resolve, h0, hc]⟩
    · exact ⟨.link c rest, by simp [nmtNode.Resolve, h0, hc]⟩
  · by_cases h1 : s = "1"
    · rcases hc : CidFromNamespacedSha256 n.r with e | c
      · exact ⟨.err e, by simp [nmtNode.Resolve, h0, h1, hc]⟩
      · exact ⟨.link c rest, by simp [nmtNode.Resolve, h0, h1, hc]⟩
    · exact ⟨.err errInvalidPathInnerMsg, by simp [nmtNode.Resolve, h0, h1]⟩

/-- C10: the registered hash function aborts on empty input (it reads
`data[0]` unguarded) and on every non-empty input returns a nil error:
the leaf hash of `data[1:]` when the first byte is the leaf prefix and the
inner hash of `data[1:]` otherwise. -/
theorem sumSha256_dispatch_total :
    ∀ (leafHash innerHash : List Nat → List Nat) (len : Int),
      sumSha256Namespace8Flagged leafHash innerHash [] len = none ∧
      ∀ (b : Nat) (rest : List Nat),
        sumSha256Namespace8Flagged leafHash innerHash (b :: rest) len =
          some (.ok (if b = leafPrefixByte then leafHash rest else innerHash rest)) := by
  intro leafHash innerHash len
  refine ⟨rfl, fun b rest => ?_⟩
  by_cases hb : b = leafPrefixByte <;> simp [sumSha256Namespace8Flagged, hb]

/-- C2 counterexample: the one-byte block consisting of just the inner-node
prefix does not yield an inner node — the unchecked slice `data[1:49]`
aborts — refuting the claim that a first byte equal to the inner prefix
yields an inner node. -/
theorem innerParse_len1_aborts :
    cexBlock1.rawData = [innerPrefixByte] ∧ NmtNodeParser cexBlock1 = none :=
  ⟨rfl, rfl⟩

/-- C1 counterexample: a 50-byte block whose first byte is the inner-node
prefix (length ≠ 97) is parsed successfully into an inner node, refuting the
claim that such blocks fail with a framing error. -/
theorem innerParse_len50_returns_node :
    cexBlock50.rawData.length = 50 ∧
    cexBlock50.rawData.take 1 = [innerPrefixByte] ∧
    NmtNodeParser cexBlock50 =
      some (.ok (.inner ⟨CidV.undef, List.replicate 48 7, [7]⟩)) := by
  refine ⟨rfl, rfl, ?_⟩
  rfl

theorem parse_leaf_eq (bs : List Nat) (c : CidV) :
    NmtNodeParser ⟨leafPrefixByte :: bs, c⟩ = some (.ok (.leaf ⟨c, bs⟩)) := by
  simp [NmtNodeParser, leafPrefixByte]

theorem parse_inner_eq (bs : List Nat) (c : CidV) (h48 : 48 ≤ bs.length) :
    NmtNodeParser ⟨innerPrefixByte :: bs, c⟩ =
      some (.ok (.inner ⟨c, bs.take 48, bs.drop 48⟩)) := by
  have hlen : ¬((innerPrefixByte :: bs).length < 1 + nmtHashSize) := by
    simp only [List.length_cons, nmtHashSize, namespaceSize, sha256Size]
    omega
  simp [NmtNodeParser, leafPrefixByte, innerPrefixByte, hlen, nmtHashSize,
    namespaceSize, sha256Size]
  exact h48

theorem parse_inner_short (bs : List Nat) (c : CidV) (h48 : bs.length < 48) :
    NmtNodeParser ⟨innerPrefixByte :: bs, c⟩ = none := by
  have hlen : (innerPrefixByte :: bs).length < 1 + nmtHashSize := by
    simp only [List.length_cons, nmtHashSize, namespaceSize, sha256Size]
    omega
  simp [NmtNodeParser, leafPrefixByte, innerPrefixByte, hlen, nmtHashSize,
    namespaceSize, sha256Size]
  exact h48

theorem parse_other_eq (hd : Nat) (tl : List Nat) (c : CidV)
    (hne0 : hd ≠ leafPrefixByte) (hne1 : hd ≠ innerPrefixByte) :
    NmtNodeParser ⟨hd :: tl, c⟩ = some (.error (parseErrMsg [hd])) := by
  simp [NmtNodeParser, hne0, hne1]

/-- C1 (amended): `NmtNodeParser` performs no length validation on
inner-prefixed blocks — a block of length at least 49 yields an inner node
with `l = data[1:49]` and `r = data[49:]` even when the total length is not
97, and a block of length below 49 aborts on the unchecked slice; a framing
error is never returned. -/
theorem innerParse_no_length_check :
    ∀ (b : Block) (bs : List Nat),
      b.rawData = innerPrefixByte :: bs →
      (49 ≤ b.rawData.length →
        NmtNodeParser b = some (.ok (.inner ⟨b.blockCid, bs.take 48, bs.drop 48⟩))) ∧
      (b.rawData.length < 49 → NmtNodeParser b = none) := by
  intro b bs hb
  obtain ⟨raw, bc⟩ := b
  simp only at hb
  subst hb
  constructor
  · intro hlen
    simp only [List.length_cons] at hlen
    exact parse_inner_eq bs bc (by omega)
  · intro hlen
    simp only [List.length_cons] at hlen
    exact parse_inner_short bs bc (by omega)

/-- Witness for C1's amended theorem: a 49-byte inner-prefixed block parses
to an inner node with empty right hash; a 2-byte inner-prefixed block
aborts. -/
theorem innerParse_no_length_check_witness :
    NmtNodeParser ⟨innerPrefixByte :: List.replicate 48 5, CidV.undef⟩ =
      some (.ok (.inner ⟨CidV.undef, List.replicate 48 5, []⟩)) ∧
    NmtNodeParser ⟨[innerPrefixByte, 5], CidV.undef⟩ = none := by
  constructor
  · rw [(innerParse_no_length_check ⟨innerPrefixByte :: List.replicate 48 5, CidV.undef⟩
      (List.replicate 48 5) rfl).1 (by decide)]
    rfl
  · exact (innerParse_no_length_check ⟨[innerPrefixByte, 5], CidV.undef⟩ [5] rfl).2
      (by decide)

/-- C2 (amended): the parser's case analysis — empty data yields an empty
leaf with an undefined identifier; a leaf-prefix first byte yields a leaf
holding the remaining bytes and the block's identifier; an inner-prefix
first byte yields an inner node when the block has at least 49 bytes and
aborts otherwise; any other first byte yields the domain-separator error,
whose message for a one-byte `0x42` block contains `00`, `01` and `42`. -/
theorem nmtNodeParser_case_analysis :
    ∀ b : Block,
      (b.rawData = [] → NmtNodeParser b = some (.ok (.leaf ⟨CidV.undef, []⟩))) ∧
      (∀ tl, b.rawData = leafPrefixByte :: tl →
        NmtNodeParser b = some (.ok (.leaf ⟨b.blockCid, tl⟩))) ∧
      (∀ tl, b.rawData = innerPrefixByte :: tl → 48 ≤ tl.length →
        NmtNodeParser b = some (.ok (.inner ⟨b.blockCid, tl.take 48, tl.drop 48⟩))) ∧
      (∀ tl, b.rawData = innerPrefixByte :: tl → tl.length < 48 →
        NmtNodeParser b = none) ∧
      (∀ hd tl, b.rawData = hd :: tl → hd ≠ leafPrefixByte → hd ≠ innerPrefixByte →
        NmtNodeParser b = some (.error (parseErrMsg [hd]))) ∧
      (NmtNodeParser ⟨[66], CidV.undef⟩ = some (.error (parseErrMsg [66])) ∧
        strContainsSub (parseErrMsg [66]) (hexOfBytes [leafPrefixByte]) = true ∧
        strContainsSub (parseErrMsg [66]) (hexOfBytes [innerPrefixByte]) = true ∧
        strContainsSub (parseErrMsg [66]) (hexOfBytes [66]) = true) := by
  intro b
  obtain ⟨raw, bc⟩ := b
  refine ⟨?_, ?_, ?_, ?_, ?_, ?_, ?_, ?_, ?_⟩
  · intro h
    simp only at h
    subst h
    rfl
  · intro tl h
    simp only at h
    subst h
    exact parse_leaf_eq tl bc
  · intro tl h h48
    simp only at h
    subst h
    exact parse_inner_eq tl bc h48
  · intro tl h h48
    simp only at h
    subst h
    exact parse_inner_short tl bc h48
  · intro hd tl h hne0 hne1
    simp only at h
    subst h
    exact parse_other_eq hd tl bc hne0 hne1
  · exact parse_other_eq 66 [] CidV.undef (by decide) (by decide)
  · decide
  · decide
  · decide

/-- Witness for C2's amended theorem: a concrete leaf block and a concrete
unknown-prefix block, parsed through the theorem. -/
theorem nmtNodeParser_case_analysis_witness :
    NmtNodeParser ⟨leafPrefixByte :: [7], CidV.undef⟩ =
      some (.ok (.leaf ⟨CidV.undef, [7]⟩)) ∧
    NmtNodeParser ⟨[66, 1], CidV.undef⟩ = some (.error (parseErrMsg [66])) := by
  constructor
  · exact (nmtNodeParser_case_analysis ⟨leafPrefixByte :: [7], CidV.undef⟩).2.1 [7] rfl
  · exact (nmtNodeParser_case_analysis ⟨[66, 1], CidV.undef⟩).2.2.2.2.1 66 [1] rfl
      (by decide) (by decide)

/-- C4: `CidFromNamespacedSha256` succeeds exactly on 48-byte inputs; on
success the CID carries the `Nmt` codec and a multihash whose digest is the
input byte-for-byte; on any other length it returns the invalid-length
error. -/
theorem cidFromNamespacedSha256_spec :
    ∀ nh : List Nat,
      ((∃ c, CidFromNamespacedSha256 nh = .ok c) ↔ nh.length = nmtHashSize) ∧
      (nh.length = nmtHashSize →
        CidFromNamespacedSha256 nh =
          .ok (.v1 Nmt ⟨Sha256Namespace8Flagged, nh.length, nh⟩) ∧
        ∀ c, CidFromNamespacedSha256 nh = .ok c →
          c.codecI = some Nmt ∧ c.digestI = some nh) ∧
      (nh.length ≠ nmtHashSize →
        CidFromNamespacedSha256 nh = .error (cidLengthErrMsg nh.length nmtHashSize)) := by
  intro nh
  by_cases h : nh.length = nmtHashSize
  · have hok : CidFromNamespacedSha256 nh =
        .ok (.v1 Nmt ⟨Sha256Namespace8Flagged, nh.length, nh⟩) := by
      simp [CidFromNamespacedSha256, h]
    refine ⟨⟨fun _ => h, fun _ => ⟨_, hok⟩⟩, fun _ => ⟨hok, ?_⟩, fun hne => absurd h hne⟩
    intro c hc
    rw [hok] at hc
    injection hc with h2
    subst h2
    exact ⟨rfl, rfl⟩
  · have herr : CidFromNamespacedSha256 nh =
        .error (cidLengthErrMsg nh.length nmtHashSize) := by
      simp [CidFromNamespacedSha256, h]
    refine ⟨⟨?_, fun hlen => absurd hlen h⟩, fun hlen => absurd hlen h, fun _ => herr⟩
    rintro ⟨c, hc⟩
    rw [herr] at hc
    exact absurd hc (by simp)

/-- Witness for C4: a concrete 48-byte hash succeeds with its own digest;
a 3-byte input fails with the invalid-length error. -/
theorem cidFromNamespacedSha256_spec_witness :
    CidFromNamespacedSha256 wHash = .ok (.v1 Nmt ⟨Sha256Namespace8Flagged, 48, wHash⟩) ∧
    CidFromNamespacedSha256 [1, 2, 3] = .error (cidLengthErrMsg 3 nmtHashSize) := by
  constructor
  · rw [((cidFromNamespacedSha256_spec wHash).2.1 (by decide)).1]
    rfl
  · exact (cidFromNamespacedSha256_spec [1, 2, 3]).2.2 (by decide)

/-- C5: `RawData` after `NmtNodeParser` is the identity on well-formed
blocks — leaf blocks `leafPrefix ++ payload` and inner blocks
`innerPrefix ++ left(48) ++ right(48)` re-materialize byte-for-byte. -/
theorem rawData_parse_roundtrip :
    (∀ (payload : List Nat) (c : CidV),
      ∃ nd, NmtNodeParser ⟨leafPrefixByte :: payload, c⟩ = some (.ok nd) ∧
        nd.rawDataI = leafPrefixByte :: payload) ∧
    (∀ (l r : List Nat) (c : CidV), l.length = 48 → r.length = 48 →
      ∃ nd, NmtNodeParser ⟨innerPrefixByte :: (l ++ r), c⟩ = some (.ok nd) ∧
        nd.rawDataI = innerPrefixByte :: (l ++ r)) := by
  constructor
  · intro payload c
    exact ⟨.leaf ⟨c, payload⟩, parse_leaf_eq payload c, rfl⟩
  · intro l r c hl hr
    refine ⟨.inner ⟨c, l, r⟩, ?_, rfl⟩
    have h48 : 48 ≤ (l ++ r).length := by simp [hl, hr]
    rw [parse_inner_eq (l ++ r) c h48]
    have htake : (l ++ r).take 48 = l := by rw [← hl]; exact List.take_left l r
    have hdrop : (l ++ r).drop 48 = r := by rw [← hl]; exact List.drop_left l r
    rw [htake, hdrop]

/-- Witness for C5: round-trip of a concrete leaf block and a concrete
97-byte inner block. -/
theorem rawData_parse_roundtrip_witness :
    (∃ nd, NmtNodeParser ⟨leafPrefixByte :: [3], CidV.undef⟩ = some (.ok nd) ∧
      nd.rawDataI = leafPrefixByte :: [3]) ∧
    (∃ nd, NmtNodeParser ⟨innerPrefixByte :: (wHash ++ wHash), CidV.undef⟩ =
        some (.ok nd) ∧
      nd.rawDataI = innerPrefixByte :: (wHash ++ wHash)) :=
  ⟨rawData_parse_roundtrip.1 [3] CidV.undef,
   rawData_parse_roundtrip.2 wHash wHash CidV.undef (by decide) (by decide)⟩

/-- C6: on an inner node, path step `"0"` resolves to a link minted from the
stored left namespaced hash (when it has the required 48 bytes) with the
remaining path, `"1"` symmetrically from the right hash, and any other step
errors; on a leaf node every path errors. -/
theorem resolve_step_spec :
    ∀ (n : nmtNode) (rest : List String),
      (n.l.length = 48 →
        n.Resolve ("0" :: rest) =
          some (.link (.v1 Nmt ⟨Sha256Namespace8Flagged, 48, n.l⟩) rest)) ∧
      (n.r.length = 48 →
        n.Resolve ("1" :: rest) =
          some (.link (.v1 Nmt ⟨Sha256Namespace8Flagged, 48, n.r⟩) rest)) ∧
      (∀ s, s ≠ "0" → s ≠ "1" →
        n.Resolve (s :: rest) = some (.err errInvalidPathInnerMsg)) ∧
      (∀ (lf : nmtLeafNode) (p : List String),
        lf.Resolve p = some (.err errInvalidPathLeafMsg)) := by
  intro n rest
  refine ⟨?_, ?_, ?_, fun lf p => rfl⟩
  · intro hl
    have hok : CidFromNamespacedSha256 n.l =
        .ok (.v1 Nmt ⟨Sha256Namespace8Flagged, 48, n.l⟩) := by
      simp [CidFromNamespacedSha256, hl, nmtHashSize, namespaceSize, sha256Size]
    simp [nmtNode.Resolve, hok]
  · intro hr
    have hok : CidFromNamespacedSha256 n.r =
        .ok (.v1 Nmt ⟨Sha256Namespace8Flagged, 48, n.r⟩) := by
      simp [CidFromNamespacedSha256, hr, nmtHashSize, namespaceSize, sha256Size]
    simp [nmtNode.Resolve, hok]
  · intro s hs0 hs1
    simp [nmtNode.Resolve, hs0, hs1]

/-- Witness for C6: resolving step `"0"` on a concrete inner node with
48-byte child hashes returns the minted left link and the remaining path. -/
theorem resolve_step_spec_witness :
    nmtNode.Resolve ⟨CidV.undef, wHash, wHash⟩ ("0" :: ["1"]) =
      some (.link (.v1 Nmt ⟨Sha256Namespace8Flagged, 48, wHash⟩) ["1"]) :=
  (resolve_step_spec ⟨CidV.undef, wHash, wHash⟩ ["1"]).1 (by decide)

theorem take_shift_drop (ext : List NodeI) (hne : ext ≠ []) :
    (ext.take 1 ++ ext.take (ext.length - 1)).drop 1 = ext.take (ext.length - 1) := by
  match ext with
  | a :: t => simp

theorem prependNode_cons (n : NodeI) (ns : List NodeI) : prependNode n ns = n :: ns := by
  simp only [prependNode]
  rw [take_shift_drop (ns ++ [NodeI.nilNode]) (by simp)]
  have hlen : (ns ++ [NodeI.nilNode]).length - 1 = ns.length := by simp
  rw [hlen, List.take_left]

theorem visit_eq (st : nmtNodeCollector) (v : VisitCall) :
    st.visit v.hash v.children =
      (mkVisitNode v).map (fun nd => (⟨nd :: st.nodes⟩ : nmtNodeCollector)) := by
  unfold nmtNodeCollector.visit mkVisitNode
  cases hmc : mustCidFromNamespacedSha256 v.hash with
  | none => rfl
  | some c =>
    cases v.children with
    | nil => rfl
    | cons c0 rest =>
      cases rest with
      | nil => simp [prependNode_cons]
      | cons c1 rest2 =>
        cases rest2 with
        | nil => simp [prependNode_cons]
        | cons c2 rest3 => rfl

theorem collectorRun_reverse :
    ∀ (visits : List VisitCall) (st out : nmtNodeCollector),
      collectorRun visits st = some out →
      ∃ ems, emittedNodes visits = some ems ∧ out.nodes = ems.reverse ++ st.nodes := by
  intro visits
  induction visits with
  | nil =>
    intro st out h
    injection h with h2
    subst h2
    exact ⟨[], rfl, by simp⟩
  | cons v vs ih =>
    intro st out h
    unfold collectorRun at h
    rw [visit_eq] at h
    cases hmk : mkVisitNode v with
    | none => rw [hmk] at h; exact absurd h (by simp)
    | some nd =>
      rw [hmk] at h
      simp only [Option.map_some'] at h
      obtain ⟨ems, hems, hnodes⟩ := ih ⟨nd :: st.nodes⟩ out h
      refine ⟨nd :: ems, ?_, ?_⟩
      · unfold emittedNodes
        rw [hmk, hems]
      · rw [hnodes]
        simp

theorem emittedNodes_snoc :
    ∀ (vs : List VisitCall) (v : VisitCall) (ems : List NodeI),
      emittedNodes (vs ++ [v]) = some ems →
      ∃ ems0 nd, mkVisitNode v = some nd ∧ ems = ems0 ++ [nd] := by
  intro vs
  induction vs with
  | nil =>
    intro v ems h
    rw [List.nil_append] at h
    unfold emittedNodes at h
    cases hmk : mkVisitNode v with
    | none => rw [hmk] at h; exact absurd h (by simp)
    | some nd =>
      rw [hmk] at h
      simp only [emittedNodes] at h
      injection h with h2
      exact ⟨[], nd, rfl, h2.symm⟩
  | cons w ws ih =>
    intro v ems h
    rw [List.cons_append] at h
    unfold emittedNodes at h
    cases hmk : mkVisitNode w with
    | none => rw [hmk] at h; exact absurd h (by simp)
    | some nd0 =>
      rw [hmk] at h
      cases hrest : emittedNodes (ws ++ [v]) with
      | none => rw [hrest] at h; exact absurd h (by simp)
      | some rest =>
        rw [hrest] at h
        injection h with h2
        obtain ⟨ems0, nd, hmkv, hrr⟩ := ih v rest hrest
        refine ⟨nd0 :: ems0, nd, hmkv, ?_⟩
        rw [← h2, hrr]
        rfl

/-- C3: `prependNode` returns the list with the new node first and the rest
in unchanged order; hence the collector's output is the reverse of emission
order, and — assuming the NMT emits in post-order with the root last — the
first element of the collector's output for a non-empty callback sequence is
the root's node, whose identifier is the CID minted from the root's hash. -/
theorem prepend_collector_root_first :
    (∀ (n : NodeI) (ns : List NodeI), prependNode n ns = n :: ns) ∧
    (∀ (visits : List VisitCall) (out : nmtNodeCollector),
      collectorRun visits newNodeCollector = some out →
      ∃ ems, emittedNodes visits = some ems ∧ out.ipldNodes = ems.reverse) ∧
    (∀ (visits : List VisitCall) (vroot : VisitCall) (out : nmtNodeCollector)
        (rootNode : NodeI),
      collectorRun (visits ++ [vroot]) newNodeCollector = some out →
      mkVisitNode vroot = some rootNode →
      out.ipldNodes.head? = some rootNode ∧
      mustCidFromNamespacedSha256 vroot.hash = some rootNode.cidI) := by
  refine ⟨prependNode_cons, ?_, ?_⟩
  · intro visits out h
    obtain ⟨ems, hems, hnodes⟩ := collectorRun_reverse visits newNodeCollector out h
    exact ⟨ems, hems, by simp [nmtNodeCollector.ipldNodes, hnodes, newNodeCollector]⟩
  · intro visits vroot out rootNode hrun hmk
    obtain ⟨ems, hems, hnodes⟩ := collectorRun_reverse _ _ _ hrun
    obtain ⟨ems0, nd, hmk2, hemseq⟩ := emittedNodes_snoc visits vroot ems hems
    rw [hmk] at hmk2
    injection hmk2 with hnd
    subst hnd
    constructor
    · show out.nodes.head? = some rootNode
      rw [hnodes, hemseq]
      simp [newNodeCollector]
    · unfold mkVisitNode at hmk
      cases hmc : mustCidFromNamespacedSha256 vroot.hash with
      | none => rw [hmc] at hmk; exact absurd hmk (by simp)
      | some c =>
        rw [hmc] at hmk
        cases hch : vroot.children with
        | nil => rw [hch] at hmk; exact absurd hmk (by simp)
        | cons c0 rest =>
          cases rest with
          | nil =>
            rw [hch] at hmk
            injection hmk with h2
            subst h2
            rfl
          | cons c1 rest2 =>
            cases rest2 with
            | nil =>
              rw [hch] at hmk
              injection hmk with h2
              subst h2
              rfl
            | cons c2 rest3 => rw [hch] at hmk; exact absurd hmk (by simp)

/-- Witness for C3: a concrete two-callback run (a leaf, then the root);
the collector's first output node is the root node and its identifier is the
CID minted from the root hash. -/
theorem prepend_collector_root_first_witness :
    collectorRun ([wLeafCall] ++ [wRootCall]) newNodeCollector = some wOut ∧
    mkVisitNode wRootCall = some wRootNode ∧
    wOut.ipldNodes.head? = some wRootNode ∧
    mustCidFromNamespacedSha256 wRootCall.hash = some wRootNode.cidI := by
  have hrun : collectorRun ([wLeafCall] ++ [wRootCall]) newNodeCollector = some wOut := by
    rfl
  have hmk : mkVisitNode wRootCall = some wRootNode := by rfl
  have h := prepend_collector_root_first.2.2 [wLeafCall] wRootCall wOut wRootNode hrun hmk
  exact ⟨hrun, hmk, h.1, h.2⟩

end LLNodes
